import Mathlib

/-!
Verification of the linearizability-checker core of the omnipaxos-kv verifier.

The Go sources embedded here:
- `model.go` (src/unnamed/part_000): `createKVModel`, `handlePut`, `handleGet`,
  `handleDelete`, `partitionByKey`;
- `types.go`: `Operation`, `MergeHistories`, `loadHistory`,
  `convertToPorcupineOperations`;
- `checker.go`: `ProcessHistory`, `calculateMaxPartialLength`, `printResults`;
- `main.go`: `main`.

Dynamic Go values (`interface{}` as decoded by `encoding/json`) are embedded as
the inductive `GoVal`.  JSON numbers are carried as `Int` (the repository only
uses integer timestamps and ids; non-integer literals, which Go would reject
when decoding into `int64`, are outside the model and are irrelevant to every
claim below).  A failed non-comma-ok type assertion (a Go panic) is modelled
explicitly (`StepRes.panic`, `Option.none`).  Go's `sort.Slice` is embedded as
a faithful port of the pattern-defeating quicksort from Go's `sort` package
(`zsortfunc.go`, Go 1.19+), with explicit iteration fuel: every loop receives a
fuel bound that dominates its real iteration count, so on the inputs evaluated
here the port computes exactly what the Go code computes.
-/

namespace OmniKV

/-- String constants used by the embedded code (kept as named definitions so the
source strings appear exactly once each). -/
def typeF : String := "type"

def keyF : String := "key"

def valueF : String := "value"

def statusF : String := "status"

def okS : String := "ok"

def putS : String := "Put"

def getS : String := "Get"

def deleteS : String := "Delete"

def unknownKeyS : String := "__unknown__"

/-- A Go `interface{}` value as produced by `encoding/json`:
`nil`, `bool`, number, `string`, `[]interface{}` or `map[string]interface{}`.
A decoded `map[string]interface{}` is carried as an association list; the
decoder never produces duplicate keys, and lookups read the first binding. -/
inductive GoVal where
  | vnil
  | vbool (b : Bool)
  | vnum (n : Int)
  | vstr (s : String)
  | varr (xs : List GoVal)
  | vobj (fields : List (String × GoVal))

/-- `v, ok := m[k]` on a decoded JSON object (`none` = key absent). -/
def objGet (fields : List (String × GoVal)) (k : String) : Option GoVal :=
  match fields with
  | [] => none
  | (k', v) :: rest => if k' = k then some v else objGet rest k

/-- Whether a `GoVal` satisfies the `.(map[string]interface{})` type assertion.
A Go `map[string]interface{}`-typed nil (as left by a missing or null JSON
field of that type) still satisfies the assertion; the loader below decodes
such fields to `vobj []`, which reads identically to a Go nil map. -/
def GoVal.isObj : GoVal → Bool
  | .vobj _ => true
  | _ => false

/-- The abstract KV state: Go's `map[string]string`, embedded as an
association list with unique keys. -/
abbrev KVState := List (String × String)

/-- `v, ok := st[k]` on the KV state. -/
def kvLookup (st : KVState) (k : String) : Option String :=
  match st with
  | [] => none
  | (k', v) :: rest => if k' = k then some v else kvLookup rest k

/-- `delete(st, k)`: remove the binding for `k` (no-op when absent). -/
def kvErase (st : KVState) (k : String) : KVState :=
  st.filter (fun p => !(p.1 = k : Bool))

/-- `st[k] = v`: bind `k` to `v`, overwriting any previous binding. -/
def kvInsert (st : KVState) (k v : String) : KVState :=
  kvErase st k ++ [(k, v)]

/-- `handlePut` from model.go: legal iff `key` and `value` are present strings;
then sets `st[key] = value`. -/
def handlePut (st : KVState) (inF : List (String × GoVal)) : Bool × KVState :=
  match objGet inF keyF, objGet inF valueF with
  | some (.vstr key), some (.vstr value) => (true, kvInsert st key value)
  | _, _ => (false, st)

/-- Go's `outValue == nil` for `outValue, _ := out["value"]`: true when the
field is absent or explicit JSON null. -/
def isNilValue (outF : List (String × GoVal)) : Bool :=
  match objGet outF valueF with
  | none => true
  | some .vnil => true
  | some _ => false

/-- `handleGet` from model.go. -/
def handleGet (st : KVState) (inF outF : List (String × GoVal)) :
    Bool × KVState :=
  match objGet inF keyF with
  | some (.vstr key) =>
    match objGet outF statusF with
    | some (.vstr outStatus) =>
      if outStatus = okS then
        match kvLookup st key with
        | none => (isNilValue outF, st)
        | some expectedValue =>
          match objGet outF valueF with
          | some (.vstr outValueStr) => (outValueStr = expectedValue, st)
          | _ => (false, st)
      else (false, st)
    | _ => (false, st)
  | _ => (false, st)

/-- `handleDelete` from model.go: legal iff `key` is a present string. -/
def handleDelete (st : KVState) (inF : List (String × GoVal)) :
    Bool × KVState :=
  match objGet inF keyF with
  | some (.vstr key) => (true, kvErase st key)
  | _ => (false, st)

/-- Result of one call of the model's `Step` closure: either a Go panic
(failed type assertion) or the returned `(legal, newState)` pair. -/
inductive StepRes where
  | panic
  | ok (legal : Bool) (st : KVState)
deriving DecidableEq, Repr

def StepRes.isPanic : StepRes → Bool
  | .panic => true
  | .ok _ _ => false

/-- The `switch opType` of the `Step` closure, as a function of the value of
`in["type"]`: a comma-ok string assertion (non-string or missing tag is not a
recognized operation) and the three-way dispatch; the `default` branch and a
failed tag assertion both return `(false, state)`. -/
def dispatchStep (st : KVState) (inF outF : List (String × GoVal)) :
    Option GoVal → StepRes
  | some (.vstr opType) =>
    if opType = putS then
      match handlePut st inF with
      | (b, st') => .ok b st'
    else if opType = getS then
      match handleGet st inF outF with
      | (b, st') => .ok b st'
    else if opType = deleteS then
      match handleDelete st inF with
      | (b, st') => .ok b st'
    else .ok false st
  | _ => .ok false st

/-- The `Step` closure of `createKVModel`: asserts `input` and `output` to
`map[string]interface{}` (panicking otherwise), reads the `type` tag and
dispatches to the handlers. -/
def kvStep (st : KVState) (input output : GoVal) : StepRes :=
  match input, output with
  | .vobj inF, .vobj outF => dispatchStep st inF outF (objGet inF typeF)
  | _, _ => .panic

/-- Spec-side legality of a `Get`, written from the specification's words
(spec 4.3 / claim C1), to be compared with the embedded `handleGet`:
legal iff the output's `status` field is the string `"ok"` AND the output's
`value` matches the current binding for `key` exactly — absent key: only the
null/absent marker is legal; present key: the output value must be a string
equal to the stored string. -/
def specGetLegal (st : KVState) (key : String)
    (outF : List (String × GoVal)) : Bool :=
  (match objGet outF statusF with
   | some (.vstr s) => s = okS
   | _ => false) &&
  (match kvLookup st key with
   | none => isNilValue outF
   | some v =>
     match objGet outF valueF with
     | some (.vstr ov) => ov = v
     | _ => false)

/-- One trace record (`Operation` in types.go). `input`/`output` are the
decoded `map[string]interface{}` fields (`vobj []` for a Go nil map). -/
structure Operation where
  clientId : Int
  input : GoVal
  call : Int
  output : GoVal
  returnTime : Int

/-- Porcupine's operation representation (`porcupine.Operation`). -/
structure PorcOp where
  clientId : Int
  input : GoVal
  call : Int
  output : GoVal
  ret : Int

/-- `convertToPorcupineOperations` from types.go: a direct field mapping. -/
def convertToPorcupineOperations (ops : List Operation) : List PorcOp :=
  ops.map fun op => ⟨op.clientId, op.input, op.call, op.output, op.returnTime⟩

def clientIdF : String := "client_id"

def inputF : String := "input"

def callF : String := "call"

def outputF : String := "output"

def returnTimeF : String := "return_time"

def errIntS : String := "cannot unmarshal value into int64 field"

def errMapS : String := "cannot unmarshal value into map field"

def errRecS : String := "cannot unmarshal value into Operation"

def errArrS : String := "cannot unmarshal value into []Operation"

/-- `encoding/json` semantics for an `int64` struct field: absent or null
leaves the zero value; a number decodes; anything else is a type error. -/
def fieldInt (fields : List (String × GoVal)) (name : String) :
    Except String Int :=
  match objGet fields name with
  | none => .ok 0
  | some .vnil => .ok 0
  | some (.vnum n) => .ok n
  | some _ => .error errIntS

/-- `encoding/json` semantics for a `map[string]interface{}` struct field:
absent or null leaves a nil map (read-equivalent to the empty map, embedded
as `vobj []`); an object decodes; anything else is a type error. -/
def fieldMap (fields : List (String × GoVal)) (name : String) :
    Except String GoVal :=
  match objGet fields name with
  | none => .ok (.vobj [])
  | some .vnil => .ok (.vobj [])
  | some (.vobj o) => .ok (.vobj o)
  | some _ => .error errMapS

/-- Decode one array element into an `Operation`: an object decodes field by
field (unknown keys ignored, missing keys defaulted), JSON null leaves the
zero `Operation`, anything else is a type error. -/
def decodeRecord : GoVal → Except String Operation
  | .vnil => .ok ⟨0, .vobj [], 0, .vobj [], 0⟩
  | .vobj fields => do
    let cid ← fieldInt fields clientIdF
    let inp ← fieldMap fields inputF
    let call ← fieldInt fields callF
    let out ← fieldMap fields outputF
    let rt ← fieldInt fields returnTimeF
    .ok ⟨cid, inp, call, out, rt⟩
  | _ => .error errRecS

def decodeList : List GoVal → Except String (List Operation)
  | [] => .ok []
  | v :: rest => do
    let op ← decodeRecord v
    let ops ← decodeList rest
    .ok (op :: ops)

/-- `loadHistory` from types.go, from the point where the file content has
been read and lexed as a JSON value: `json.Unmarshal(data, &ops)` for
`ops []Operation`.  The top level must be an array (or null, which leaves the
nil slice); order within the file is preserved.  File-unreadable errors are
outside this model; a `.error` result is the `LoadError` of the spec. -/
def loadHistory : GoVal → Except String (List Operation)
  | .vnil => .ok []
  | .varr elems => decodeList elems
  | _ => .error errArrS

def exceptIsOk {ε α : Type} : Except ε α → Bool
  | .ok _ => true
  | .error _ => false

/-! ### Go's `sort.Slice` (pattern-defeating quicksort, `sort/zsortfunc.go`)

`MergeHistories` sorts the concatenated records with
`sort.Slice(allOps, func(i, j) { return allOps[i].Call < allOps[j].Call })`.
`sort.Slice` is Go's UNSTABLE sort (pdqsort since Go 1.19); it is ported here
operation by operation.  Loops are given explicit fuel upper bounds; fuel can
never be exhausted on the inputs this development evaluates (each bound
dominates the loop's true iteration count), and exhaustion would merely return
the array unchanged. -/

def defaultOp : Operation := ⟨0, .vnil, 0, .vnil, 0⟩

def aget (arr : Array Operation) (i : Nat) : Operation :=
  arr.getD i defaultOp

def aswap (arr : Array Operation) (i j : Nat) : Array Operation :=
  let x := aget arr i
  let y := aget arr j
  (arr.setD i y).setD j x

/-- The `less` closure passed by `MergeHistories`: compare `call` fields. -/
def goLess (arr : Array Operation) (i j : Nat) : Bool :=
  (aget arr i).call < (aget arr j).call

/-- `bits.Len(uint(n))`, via fueled binary shrinking. -/
def bitsLenAux : Nat → Nat → Nat
  | 0, _ => 0
  | fuel + 1, n => if n = 0 then 0 else bitsLenAux fuel (n / 2) + 1

def bitsLen (n : Nat) : Nat := bitsLenAux (n + 1) n

/-- `nextPowerOfTwo` from Go's sort package. -/
def nextPowerOfTwo (n : Nat) : Nat := 1 <<< bitsLen n

/-- One step of Go's `xorshift` generator on `uint64`. -/
def xorshiftNext (r : Nat) : Nat :=
  let r := (r ^^^ (r <<< 13)) % (2 ^ 64)
  let r := (r ^^^ (r >>> 7)) % (2 ^ 64)
  let r := (r ^^^ (r <<< 17)) % (2 ^ 64)
  r

/-- Inner while of `insertionSort_func`: shift element `j` left while smaller
than its predecessor. -/
def insSortInner (fuel : Nat) (arr : Array Operation) (a j : Nat) :
    Array Operation :=
  match fuel with
  | 0 => arr
  | fuel + 1 =>
    if a < j && goLess arr j (j - 1) then
      insSortInner fuel (aswap arr j (j - 1)) a (j - 1)
    else arr

def insSortOuter (fuel : Nat) (arr : Array Operation) (a i b : Nat) :
    Array Operation :=
  match fuel with
  | 0 => arr
  | fuel + 1 =>
    if i < b then insSortOuter fuel (insSortInner i arr a i) a (i + 1) b
    else arr

/-- `insertionSort_func data a b`. -/
def insertionSortGo (arr : Array Operation) (a b : Nat) : Array Operation :=
  insSortOuter (b + 1) arr a (a + 1) b

/-- `siftDown_func data root hi first` (loop fuel: the heap index doubles). -/
def siftDownGo (fuel : Nat) (arr : Array Operation) (root hi first : Nat) :
    Array Operation :=
  match fuel with
  | 0 => arr
  | fuel + 1 =>
    let child := 2 * root + 1
    if child ≥ hi then arr
    else
      let child :=
        if child + 1 < hi && goLess arr (first + child) (first + child + 1)
        then child + 1 else child
      if !goLess arr (first + root) (first + child) then arr
      else siftDownGo fuel (aswap arr (first + root) (first + child)) child
        hi first

/-- Heap-building loop of `heapSort_func`: `for i := (hi-1)/2; i >= 0; i--`. -/
def heapBuild (fuel : Nat) (arr : Array Operation) (i hi first : Nat) :
    Array Operation :=
  match fuel with
  | 0 => arr
  | fuel + 1 =>
    let arr := siftDownGo (hi + 1) arr i hi first
    if i = 0 then arr else heapBuild fuel arr (i - 1) hi first

/-- Pop loop of `heapSort_func`: `for i := hi - 1; i >= 0; i--`. -/
def heapPop (fuel : Nat) (arr : Array Operation) (i first : Nat) :
    Array Operation :=
  match fuel with
  | 0 => arr
  | fuel + 1 =>
    let arr := siftDownGo (i + 1) (aswap arr first (first + i)) 0 i first
    if i = 0 then arr else heapPop fuel arr (i - 1) first

/-- `heapSort_func data a b`. -/
def heapSortGo (arr : Array Operation) (a b : Nat) : Array Operation :=
  let first := a
  let hi := b - a
  let arr := heapBuild ((hi - 1) / 2 + 1) arr ((hi - 1) / 2) hi first
  if hi = 0 then arr else heapPop hi arr (hi - 1) first

/-- `order2_func`: returns the two indices in value order plus the updated
swap counter. -/
def order2Go (arr : Array Operation) (a b swaps : Nat) : Nat × Nat × Nat :=
  if goLess arr b a then (b, a, swaps + 1) else (a, b, swaps)

/-- `median_func`: index of the median of three, with swap counting. -/
def medianGo (arr : Array Operation) (a b c swaps : Nat) : Nat × Nat :=
  match order2Go arr a b swaps with
  | (a, b, swaps) =>
    match order2Go arr b c swaps with
    | (b, _, swaps) =>
      match order2Go arr a b swaps with
      | (_, b, swaps) => (b, swaps)

/-- `medianAdjacent_func`: median of `a-1, a, a+1`. -/
def medianAdjacentGo (arr : Array Operation) (a swaps : Nat) : Nat × Nat :=
  medianGo arr (a - 1) a (a + 1) swaps

inductive SortedHint where
  | increasing
  | decreasing
  | unknown
deriving DecidableEq

/-- `choosePivot_func`: static / median-of-three / Tukey-ninther pivot with a
sortedness hint derived from the swap count. -/
def choosePivotGo (arr : Array Operation) (a b : Nat) : Nat × SortedHint :=
  let l := b - a
  let i := a + l / 4 * 1
  let j := a + l / 4 * 2
  let k := a + l / 4 * 3
  let (j, swaps) :=
    if l ≥ 8 then
      let (i, j, k, swaps) :=
        if l ≥ 50 then
          match medianAdjacentGo arr i 0 with
          | (i, s) =>
            match medianAdjacentGo arr j s with
            | (j, s) =>
              match medianAdjacentGo arr k s with
              | (k, s) => (i, j, k, s)
        else (i, j, k, 0)
      medianGo arr i j k swaps
    else (j, 0)
  if swaps = 0 then (j, .increasing)
  else if swaps = 12 then (j, .decreasing)
  else (j, .unknown)

/-- `reverseRange_func` with explicit endpoints `i < j`. -/
def reverseRangeGo (fuel : Nat) (arr : Array Operation) (i j : Nat) :
    Array Operation :=
  match fuel with
  | 0 => arr
  | fuel + 1 =>
    if i < j then reverseRangeGo fuel (aswap arr i j) (i + 1) (j - 1)
    else arr

/-- Left-shift loop of `partialInsertionSort_func`:
`for j := i-1; j >= 1; j--`. -/
def pinsShiftL (fuel : Nat) (arr : Array Operation) (j : Nat) :
    Array Operation :=
  match fuel with
  | 0 => arr
  | fuel + 1 =>
    if 1 ≤ j then
      if !goLess arr j (j - 1) then arr
      else pinsShiftL fuel (aswap arr j (j - 1)) (j - 1)
    else arr

/-- Right-shift loop of `partialInsertionSort_func`:
`for j := i+1; j < b; j++`. -/
def pinsShiftR (fuel : Nat) (arr : Array Operation) (j b : Nat) :
    Array Operation :=
  match fuel with
  | 0 => arr
  | fuel + 1 =>
    if j < b then
      if !goLess arr j (j - 1) then arr
      else pinsShiftR fuel (aswap arr j (j - 1)) (j + 1) b
    else arr

/-- Forward scan for the first adjacent inversion:
`for i < b && !data.Less(i, i-1) { i++ }`. -/
def scanSorted (fuel : Nat) (arr : Array Operation) (i b : Nat) : Nat :=
  match fuel with
  | 0 => i
  | fuel + 1 =>
    if i < b && !goLess arr i (i - 1) then scanSorted fuel arr (i + 1) b
    else i

/-- Main loop of `partialInsertionSort_func` (at most `maxSteps = 5` rounds);
returns the array and whether it ended sorted. -/
def partialInsLoop (steps : Nat) (arr : Array Operation) (a i b : Nat) :
    Array Operation × Bool :=
  match steps with
  | 0 => (arr, false)
  | steps + 1 =>
    let i := scanSorted (b + 1) arr i b
    if i = b then (arr, true)
    else if b - a < 50 then (arr, false)
    else
      let arr := aswap arr i (i - 1)
      let arr := if i - a ≥ 2 then pinsShiftL i arr (i - 1) else arr
      let arr := if b - i ≥ 2 then pinsShiftR b arr (i + 1) b else arr
      partialInsLoop steps arr a i b

/-- `partialInsertionSort_func data a b`. -/
def partialInsertionSortGo (arr : Array Operation) (a b : Nat) :
    Array Operation × Bool :=
  partialInsLoop 5 arr a (a + 1) b

/-- `breakPatterns_func data a b` (three pseudo-random swaps). -/
def breakPatternsGo (arr : Array Operation) (a b : Nat) : Array Operation :=
  let length := b - a
  if length ≥ 8 then
    let modulus := nextPowerOfTwo length
    let idx := a + length / 4 * 2 - 1
    let r1 := xorshiftNext length
    let o1 := let o := r1 &&& (modulus - 1); if o ≥ length then o - length else o
    let arr := aswap arr (idx - 1) (a + o1)
    let r2 := xorshiftNext r1
    let o2 := let o := r2 &&& (modulus - 1); if o ≥ length then o - length else o
    let arr := aswap arr idx (a + o2)
    let r3 := xorshiftNext r2
    let o3 := let o := r3 &&& (modulus - 1); if o ≥ length then o - length else o
    aswap arr (idx + 1) (a + o3)
  else arr

/-- `for i <= j && data.Less(i, a) { i++ }`. -/
def scanI (fuel : Nat) (arr : Array Operation) (i j a : Nat) : Nat :=
  match fuel with
  | 0 => i
  | fuel + 1 =>
    if i ≤ j && goLess arr i a then scanI fuel arr (i + 1) j a else i

/-- `for i <= j && !data.Less(j, a) { j-- }`. -/
def scanJ (fuel : Nat) (arr : Array Operation) (i j a : Nat) : Nat :=
  match fuel with
  | 0 => j
  | fuel + 1 =>
    if i ≤ j && !goLess arr j a then scanJ fuel arr i (j - 1) a else j

/-- Second phase of `partition_func`: scan, swap, repeat; returns the final
array and `j`. -/
def partLoop (fuel : Nat) (arr : Array Operation) (a i j b : Nat) :
    Array Operation × Nat :=
  match fuel with
  | 0 => (arr, j)
  | fuel + 1 =>
    let i := scanI (b + 1) arr i j a
    let j := scanJ (b + 1) arr i j a
    if i > j then (arr, j)
    else partLoop fuel (aswap arr i j) a (i + 1) (j - 1) b

/-- `partition_func data a b pivot`: returns the array, the new pivot index
and whether the range was already partitioned. -/
def partitionGo (arr : Array Operation) (a b pivot : Nat) :
    Array Operation × Nat × Bool :=
  let arr := aswap arr a pivot
  let i := a + 1
  let j := b - 1
  let i := scanI (b + 1) arr i j a
  let j := scanJ (b + 1) arr i j a
  if i > j then (aswap arr j a, j, true)
  else
    let arr := aswap arr i j
    match partLoop (b + 1) arr a (i + 1) (j - 1) b with
    | (arr, j) => (aswap arr j a, j, false)

/-- `for i <= j && !data.Less(a, i) { i++ }`. -/
def scanIEq (fuel : Nat) (arr : Array Operation) (i j a : Nat) : Nat :=
  match fuel with
  | 0 => i
  | fuel + 1 =>
    if i ≤ j && !goLess arr a i then scanIEq fuel arr (i + 1) j a else i

/-- `for i <= j && data.Less(a, j) { j-- }`. -/
def scanJEq (fuel : Nat) (arr : Array Operation) (i j a : Nat) : Nat :=
  match fuel with
  | 0 => j
  | fuel + 1 =>
    if i ≤ j && goLess arr a j then scanJEq fuel arr i (j - 1) a else j

/-- Loop of `partitionEqual_func`; returns the array and the final `i`. -/
def partEqLoop (fuel : Nat) (arr : Array Operation) (a i j b : Nat) :
    Array Operation × Nat :=
  match fuel with
  | 0 => (arr, i)
  | fuel + 1 =>
    let i := scanIEq (b + 1) arr i j a
    let j := scanJEq (b + 1) arr i j a
    if i > j then (arr, i)
    else partEqLoop fuel (aswap arr i j) a (i + 1) (j - 1) b

/-- `partitionEqual_func data a b pivot`: returns the array and the index of
the first element greater than the pivot. -/
def partitionEqualGo (arr : Array Operation) (a b pivot : Nat) :
    Array Operation × Nat :=
  let arr := aswap arr a pivot
  partEqLoop (b + 1) arr a (a + 1) (b - 1) b

/-- `pdqsort_func data a b limit`, with `wasBalanced`/`wasPartitioned` made
explicit parameters (both start `true`; fresh recursive invocations reset
them, the iterated side keeps the updated values, exactly as in Go). -/
def pdqsortGo (fuel : Nat) (arr : Array Operation)
    (a b limit : Nat) (wasBalanced wasPartitioned : Bool) : Array Operation :=
  match fuel with
  | 0 => arr
  | fuel + 1 =>
    let length := b - a
    if length ≤ 12 then insertionSortGo arr a b
    else if limit = 0 then heapSortGo arr a b
    else
      let (arr, limit) :=
        if !wasBalanced then (breakPatternsGo arr a b, limit - 1)
        else (arr, limit)
      let (pivot, hint) := choosePivotGo arr a b
      let (arr, pivot, hint) :=
        if hint = .decreasing then
          (reverseRangeGo (b + 1) arr a (b - 1), (b - 1) - (pivot - a),
            SortedHint.increasing)
        else (arr, pivot, hint)
      let (arr, done) :=
        if wasBalanced && wasPartitioned && hint = .increasing then
          partialInsertionSortGo arr a b
        else (arr, false)
      if done then arr
      else if a > 0 && !goLess arr (a - 1) pivot then
        match partitionEqualGo arr a b pivot with
        | (arr, mid) => pdqsortGo fuel arr mid b limit wasBalanced
            wasPartitioned
      else
        match partitionGo arr a b pivot with
        | (arr, mid, alreadyPartitioned) =>
          let wasPartitioned := alreadyPartitioned
          let leftLen := mid - a
          let rightLen := b - mid
          let balanceThreshold := length / 8
          let wasBalanced := min leftLen rightLen ≥ balanceThreshold
          if leftLen < rightLen then
            let arr := pdqsortGo fuel arr a mid limit true true
            pdqsortGo fuel arr (mid + 1) b limit wasBalanced wasPartitioned
          else
            let arr := pdqsortGo fuel arr (mid + 1) b limit true true
            pdqsortGo fuel arr a mid limit wasBalanced wasPartitioned

/-- `sort.Slice(ops, func(i, j) { return ops[i].Call < ops[j].Call })`:
`limit := bits.Len(uint(length))`, then pdqsort of the whole range. -/
def sortSliceByCall (ops : List Operation) : List Operation :=
  let arr := ops.toArray
  let length := arr.size
  let limit := bitsLen length
  (pdqsortGo (2 * length + 2 * limit + 8) arr 0 length limit true true).toList

/-- The load loop of `MergeHistories`: load each file in order, propagating
the first `LoadError`, and concatenate the results in file order. -/
def loadAll : List GoVal → Except String (List Operation)
  | [] => .ok []
  | f :: fs => do
    let ops ← loadHistory f
    let rest ← loadAll fs
    .ok (ops ++ rest)

/-- `MergeHistories` from types.go, at the level of decoded JSON contents:
load every file (first error aborts), concatenate in file order, sort by
`call` with Go's (unstable) `sort.Slice`.  Writing the merged artifact to
disk is I/O outside the model; its content is the returned sequence. -/
def mergeHistories (files : List GoVal) : Except String (List Operation) :=
  match loadAll files with
  | .error e => .error e
  | .ok allOps => .ok (sortSliceByCall allOps)

/-! ### `partitionByKey` (model.go)

Go builds a `map[string][]porcupine.Operation` and then collects the value
slices; map iteration order is unspecified, so the partitions are embedded as
a list of labelled buckets in first-appearance order — the same buckets with
the same inner order as the Go code, in one of its possible output orders.
The `op.Input.(map[string]interface{})` assertion panics on a non-map input,
modelled as `none`. -/

/-- The key Go extracts from one operation: `in["key"].(string)`, defaulting
to `"__unknown__"` on a missing or non-string key; `none` when the
`op.Input.(map[string]interface{})` assertion itself panics. -/
def porcKeyOf (op : PorcOp) : Option String :=
  match op.input with
  | .vobj inF =>
    match objGet inF keyF with
    | some (.vstr s) => some s
    | _ => some unknownKeyS
  | _ => none

/-- `partitions[key] = append(partitions[key], op)`: append to the bucket
labelled `k`, or create it (at the end, i.e. in first-appearance order). -/
def insertOp (acc : List (String × List PorcOp)) (k : String) (op : PorcOp) :
    List (String × List PorcOp) :=
  match acc with
  | [] => [(k, [op])]
  | (k', ops) :: rest =>
    if k' = k then (k', ops ++ [op]) :: rest
    else (k', ops) :: insertOp rest k op

/-- The bucket-building loop of `partitionByKey`; `none` = panic. -/
def buildPartitions (acc : List (String × List PorcOp)) :
    List PorcOp → Option (List (String × List PorcOp))
  | [] => some acc
  | op :: rest =>
    match porcKeyOf op with
    | none => none
    | some k => buildPartitions (insertOp acc k op) rest

/-- `partitionByKey` from model.go; `none` = panic on a non-map input. -/
def partitionByKey (history : List PorcOp) : Option (List (List PorcOp)) :=
  (buildPartitions [] history).map (List.map Prod.snd)

/-! ### Checking orchestrator (checker.go) and CLI shell (main.go)

The external checking engine (porcupine's `CheckOperationsVerbose`) is out of
scope per the spec and is modelled as an opaque parameter returning a
`CheckResult` together with the diagnostic partial linearizations
(`info.PartialLinearizations()`, a list of partitions, each a list of
candidate linearizations, each a list of operation ids).  Printing is
modelled by the returned data (`printResultsLines` gives the exact uncolored
message text; `Colorize` only wraps ANSI escape codes around it).
Visualization (`generateVisualization`, `porcupine.Visualize`) is excluded
rendering I/O per the spec.  `ProcessHistory` re-reads the merged artifact
that `MergeHistories` wrote; that JSON round-trip is the identity on the
record sequence and is modelled as such. -/

/-- Porcupine's `CheckResult`: `"Unknown"` (timeout), `"Ok"`, `"Illegal"`. -/
inductive CheckResult where
  | unknown
  | ok
  | illegal
deriving DecidableEq, Repr

/-- `fmt.Sprintf("%v", result)` on a `porcupine.CheckResult`. -/
def CheckResult.goString : CheckResult → String
  | .unknown => "Unknown"
  | .ok => "Ok"
  | .illegal => "Illegal"

/-- The checking engine as an opaque collaborator: verdict plus diagnostic
partial linearizations. -/
abbrev Engine := List PorcOp → CheckResult × List (List (List Nat))

/-- `calculateMaxPartialLength` from checker.go: maximum length over all
partitions' partial linearizations. -/
def calculateMaxPartialLength (partials : List (List (List Nat))) : Nat :=
  partials.foldl
    (fun m partition =>
      partition.foldl
        (fun m lin => if lin.length > m then lin.length else m) m)
    0

/-- `HistoryResult` from types.go (`HTMLPath` omitted: visualization is
excluded rendering; `result = none` is Go's zero `CheckResult` left by the
load-error branch). -/
structure HistoryResult where
  path : String
  isLinearizable : Bool := false
  totalOps : Nat := 0
  maxPartialLen : Nat := 0
  result : Option CheckResult := none
deriving DecidableEq, Repr

/-- The message lines `printResults` emits (text inside `Colorize`). -/
def printResultsLines (result : CheckResult) (totalOps maxPartialLength : Nat) :
    List String :=
  if result = .ok then
    ["  ✅ History is linearizable",
      "  🧮 Total operations: " ++ toString totalOps] ++
    (if maxPartialLength > 0 then
      ["  📌 Max partial linearization length: " ++ toString maxPartialLength]
    else [])
  else
    ["  🚫 History is NOT linearizable",
      "  🧮 Total operations: " ++ toString totalOps] ++
    (if maxPartialLength > 0 then
      ["  📌 Max partial linearization length: " ++ toString maxPartialLength
        ++ " (out of " ++ toString totalOps ++ ")"]
    else []) ++
    ["  ⚠️ Check result: " ++ result.goString]

/-- `ProcessHistory` from the point where the history is loaded: the empty
check, the conversion, the engine call and the assembled `HistoryResult`. -/
def processHistoryOps (engine : Engine) (path : String)
    (ops : List Operation) : HistoryResult :=
  if ops.length = 0 then
    { path := path, isLinearizable := true, totalOps := 0 }
  else
    let history := convertToPorcupineOperations ops
    let res := engine history
    let maxPartialLength := calculateMaxPartialLength res.2
    { path := path
      isLinearizable := res.1 = .ok
      totalOps := history.length
      maxPartialLen := maxPartialLength
      result := some res.1 }

/-- `ProcessHistory` from checker.go, over the file's decoded JSON content:
a load error prints to stderr and returns the near-empty failure result;
otherwise processing continues as in `processHistoryOps`. -/
def processHistory (engine : Engine) (path : String) (content : GoVal) :
    HistoryResult :=
  match loadHistory content with
  | .error _ => { path := path, isLinearizable := false }
  | .ok ops => processHistoryOps engine path ops

/-- What one run of `main` produces: the exit code, whether the `📊 Summary`
block was printed, and the `HistoryResult` it summarized (if any). -/
structure RunOutcome where
  exitCode : Nat
  summaryPrinted : Bool
  summary : Option HistoryResult
deriving DecidableEq, Repr

def mergedPathS : String := "merged-history.json"

/-- `main` from main.go over the decoded contents of the argument files:
no files prints usage and exits 1; two or more files are merged first, a
merge failure printing the error and exiting 1 before any summary; the
(single or merged) history is then processed and the summary is always
printed, with exit code 0 exactly when the result is linearizable. -/
def runMain (engine : Engine) (files : List (String × GoVal)) : RunOutcome :=
  match files with
  | [] => ⟨1, false, none⟩
  | [(p, content)] =>
    let r := processHistory engine p content
    ⟨if r.isLinearizable then 0 else 1, true, some r⟩
  | _ :: _ :: _ =>
    match mergeHistories (files.map Prod.snd) with
    | .error _ => ⟨1, false, none⟩
    | .ok ops =>
      let r := processHistoryOps engine mergedPathS ops
      ⟨if r.isLinearizable then 0 else 1, true, some r⟩

/-! ### Spec-side definitions and concrete fixtures -/

/-- Spec-side shape of a well-formed `Put` on key `k`: the input map declares
`type = "Put"`, `key = k` and a string `value`. -/
def isPutWf (k : String) (inF : List (String × GoVal)) : Bool :=
  match objGet inF typeF, objGet inF keyF, objGet inF valueF with
  | some (.vstr t), some (.vstr k'), some (.vstr _) => t = putS && k' = k
  | _, _, _ => false

/-- Spec-side shape of a well-formed `Delete` on key `k`: the input map
declares `type = "Delete"` and `key = k`. -/
def isDeleteWf (k : String) (inF : List (String × GoVal)) : Bool :=
  match objGet inF typeF, objGet inF keyF with
  | some (.vstr t), some (.vstr k') => t = deleteS && k' = k
  | _, _ => false

/-- Spec-side well-formedness of a single-key `Put`/`Delete` record (spec 8,
first testable property): the input is a map declaring a well-formed `Put` or
`Delete` on key `k`, and the output is a map (§3: output is a free-form
mapping). -/
def wfPutDelete (k : String) (p : GoVal × GoVal) : Bool :=
  match p with
  | (.vobj inF, .vobj _) => isPutWf k inF || isDeleteWf k inF
  | _ => false

/-- Replay a history through the model in the order given, requiring every
step to be reported legal. -/
def replayLegal (st : KVState) : List (GoVal × GoVal) → Bool
  | [] => true
  | (i, o) :: rest =>
    match kvStep st i o with
    | .ok true st' => replayLegal st' rest
    | _ => false

/-- A well-formed trace record as a JSON value (`mkRecord cid inF c outF rt`):
numeric `client_id`/`call`/`return_time` and object `input`/`output`. -/
def mkRecord (cid : Int) (inF : List (String × GoVal)) (callv : Int)
    (outF : List (String × GoVal)) (rt : Int) : GoVal :=
  .vobj [(clientIdF, .vnum cid), (inputF, .vobj inF), (callF, .vnum callv),
    (outputF, .vobj outF), (returnTimeF, .vnum rt)]

/-- The `Operation` that `mkRecord cid inF c outF rt` decodes to. -/
def mkOperation (cid : Int) (inF : List (String × GoVal)) (callv : Int)
    (outF : List (String × GoVal)) (rt : Int) : Operation :=
  ⟨cid, .vobj inF, callv, .vobj outF, rt⟩

/-- A `Put("x", "v")` record with the given id and call time, as JSON. -/
def mkPutRecord (cid callv : Int) : GoVal :=
  mkRecord cid [(typeF, .vstr putS), (keyF, .vstr "x"), (valueF, .vstr "v")]
    callv [(statusF, .vstr okS)] (callv + 1)

/-- First trace file of the merge counterexample: ids 0-6 with call times
1,0,2,0,3,3,3. -/
def fileA : GoVal :=
  .varr [mkPutRecord 0 1, mkPutRecord 1 0, mkPutRecord 2 2, mkPutRecord 3 0,
    mkPutRecord 4 3, mkPutRecord 5 3, mkPutRecord 6 3]

/-- Second trace file of the merge counterexample: ids 7-12 with call times
3,1,0,3,0,3. -/
def fileB : GoVal :=
  .varr [mkPutRecord 7 3, mkPutRecord 8 1, mkPutRecord 9 0, mkPutRecord 10 3,
    mkPutRecord 11 0, mkPutRecord 12 3]

/-- The `clientId` sequence of a loaded/merged history (or `[]` on error). -/
def idsOf (r : Except String (List Operation)) : List Int :=
  match r with
  | .ok ops => ops.map (fun op => op.clientId)
  | .error _ => []

/-- The `call` sequence of a loaded/merged history (or `[]` on error). -/
def callsOf (r : Except String (List Operation)) : List Int :=
  match r with
  | .ok ops => ops.map (fun op => op.call)
  | .error _ => []

/-- A trace file whose single record's `input` lacks the `key` field
(spec 8, Scenario 4). -/
def missingKeyFile : GoVal :=
  .varr [mkRecord 1 [(typeF, .vstr getS)] 1 [(statusF, .vstr okS)] 2]

/-- A file whose content is not an array of records (`3` at top level). -/
def badFile : GoVal := .vnum 3

/-- A stub engine declaring every history linearizable. -/
def engineOk : Engine := fun _ => (.ok, [])

/-- A stub engine that times out (verdict `Unknown`) with one partial
linearization of length 1. -/
def engineUnknown : Engine := fun _ => (.unknown, [[[0]]])

/-- A porcupine operation whose `Input` is not a map (dynamic type
`string`): `partitionByKey` and `Step` panic on it. -/
def badPorcOp : PorcOp := ⟨1, .vstr "oops", 0, .vobj [], 1⟩

/-- A porcupine `Get("x")` operation with a map input, for witnesses. -/
def goodPorcOp : PorcOp :=
  ⟨1, .vobj [(typeF, .vstr getS), (keyF, .vstr "x")], 0,
    .vobj [(statusF, .vstr okS)], 1⟩

/-- A porcupine operation whose input map has no `key` field: its key cannot
be determined, so it belongs in the defensive `"__unknown__"` bucket. -/
def noKeyPorcOp : PorcOp :=
  ⟨2, .vobj [(typeF, .vstr putS)], 0, .vobj [], 1⟩

/-! ### Helper lemmas -/

theorem kvLookup_kvErase (st : KVState) (k k' : String) :
    kvLookup (kvErase st k) k' = if k' = k then none else kvLookup st k' := by
  induction st with
  | nil => simp [kvErase, kvLookup]
  | cons p rest ih =>
    obtain ⟨a, b⟩ := p
    by_cases hak : a = k
    · subst hak
      have he : kvErase ((a, b) :: rest) a = kvErase rest a := by
        simp [kvErase, List.filter]
      rw [he, ih]
      by_cases hk' : k' = a
      · simp [hk']
      · simp [kvLookup, hk', Ne.symm hk']
    · have he : kvErase ((a, b) :: rest) k = (a, b) :: kvErase rest k := by
        simp [kvErase, List.filter, hak]
      rw [he]
      by_cases hak' : a = k'
      · subst hak'
        simp [kvLookup, hak]
      · simp [kvLookup, hak', ih]

theorem kvLookup_append_single (xs : KVState) (k v : String) (k' : String) :
    kvLookup (xs ++ [(k, v)]) k' =
      match kvLookup xs k' with
      | some w => some w
      | none => if k = k' then some v else none := by
  induction xs with
  | nil => simp [kvLookup]
  | cons p rest ih =>
    obtain ⟨a, b⟩ := p
    by_cases hak' : a = k'
    · simp [kvLookup, hak']
    · simp [kvLookup, hak', ih]

theorem kvLookup_kvInsert (st : KVState) (k v k' : String) :
    kvLookup (kvInsert st k v) k' =
      if k' = k then some v else kvLookup st k' := by
  unfold kvInsert
  rw [kvLookup_append_single, kvLookup_kvErase]
  by_cases hk : k' = k
  · simp [hk]
  · have hk2 : ¬ k = k' := fun h => hk h.symm
    simp [hk]
    cases kvLookup st k' <;> simp [hk2]

theorem kvErase_absent (st : KVState) (k : String)
    (h : kvLookup st k = none) : kvErase st k = st := by
  induction st with
  | nil => rfl
  | cons p rest ih =>
    obtain ⟨a, b⟩ := p
    by_cases hak : a = k
    · simp [kvLookup, hak] at h
    · simp [kvLookup, hak] at h
      simp [kvErase, List.filter, hak] at *
      exact ih h

theorem handleGet_state (st : KVState) (inF outF : List (String × GoVal)) :
    (handleGet st inF outF).2 = st := by
  unfold handleGet
  repeat' split <;> try rfl

theorem handleGet_eq_spec (st : KVState) (inF outF : List (String × GoVal))
    (k : String) (hkey : objGet inF keyF = some (.vstr k)) :
    handleGet st inF outF = (specGetLegal st k outF, st) := by
  unfold handleGet specGetLegal
  rw [hkey]
  cases hs : objGet outF statusF with
  | none => simp
  | some v =>
    cases v with
    | vstr s =>
      by_cases hok : s = okS
      · subst hok
        cases hl : kvLookup st k with
        | none => simp [hs, hl]
        | some ev =>
          cases hv : objGet outF valueF with
          | none => simp [hs, hl, hv]
          | some w => cases w <;> simp [hs, hl, hv]
      · simp [hs, hok]
    | vnil => simp
    | vbool b => simp
    | vnum n => simp
    | varr xs => simp
    | vobj fs => simp

/-- Evaluating the `Step` dispatch at a `Get` input map. -/
theorem kvStep_get (st : KVState) (inF outF : List (String × GoVal))
    (hty : objGet inF typeF = some (.vstr getS)) :
    kvStep st (.vobj inF) (.vobj outF) =
      .ok (handleGet st inF outF).1 (handleGet st inF outF).2 := by
  show dispatchStep st inF outF (objGet inF typeF) =
    .ok (handleGet st inF outF).1 (handleGet st inF outF).2
  rw [hty]
  simp only [dispatchStep]
  rw [if_neg (by decide : ¬ (getS = putS))]
  simp

/-! ### C1: Get legality -/

/-- C1 (confirmed).  For every state and every `Get` operation (an input map
with `type = "Get"` and a string `key`, and an output map), the step function
reports the operation legal exactly when `specGetLegal` holds — the output's
`status` is `"ok"` and the output `value` matches the current binding of the
key: absent key demands the null/absent marker (any non-null value, the empty
string included, is illegal); present key demands a string equal to the
stored one.  The state is returned unchanged. -/
theorem get_legal_iff_spec (st : KVState) (inF outF : List (String × GoVal))
    (k : String)
    (hty : objGet inF typeF = some (.vstr getS))
    (hkey : objGet inF keyF = some (.vstr k)) :
    kvStep st (.vobj inF) (.vobj outF) = .ok (specGetLegal st k outF) st := by
  rw [kvStep_get st inF outF hty, handleGet_eq_spec st inF outF k hkey]

/-- Witness for C1 at a concrete `Get("x")` against the empty state with
output `{status: "ok"}` (value absent: legal, since `"x"` is unbound). -/
theorem get_legal_iff_spec_witness :
    objGet [(typeF, GoVal.vstr getS), (keyF, GoVal.vstr "x")] typeF =
        some (.vstr getS) ∧
    objGet [(typeF, GoVal.vstr getS), (keyF, GoVal.vstr "x")] keyF =
        some (.vstr "x") ∧
    kvStep [] (.vobj [(typeF, GoVal.vstr getS), (keyF, GoVal.vstr "x")])
        (.vobj [(statusF, GoVal.vstr okS)]) =
      .ok (specGetLegal [] "x" [(statusF, GoVal.vstr okS)]) [] :=
  ⟨rfl, rfl,
    get_legal_iff_spec [] [(typeF, GoVal.vstr getS), (keyF, GoVal.vstr "x")]
      [(statusF, GoVal.vstr okS)] "x" rfl rfl⟩

/-! ### Dispatch and handler lemmas -/

theorem dispatchStep_put (st : KVState) (inF outF : List (String × GoVal)) :
    dispatchStep st inF outF (some (.vstr putS)) =
      .ok (handlePut st inF).1 (handlePut st inF).2 := by
  simp [dispatchStep]

theorem dispatchStep_get (st : KVState) (inF outF : List (String × GoVal)) :
    dispatchStep st inF outF (some (.vstr getS)) =
      .ok (handleGet st inF outF).1 (handleGet st inF outF).2 := by
  simp [dispatchStep, getS, putS]

theorem dispatchStep_delete (st : KVState) (inF outF : List (String × GoVal)) :
    dispatchStep st inF outF (some (.vstr deleteS)) =
      .ok (handleDelete st inF).1 (handleDelete st inF).2 := by
  simp [dispatchStep, deleteS, putS, getS]

theorem dispatchStep_other (st : KVState) (inF outF : List (String × GoVal))
    (s : String) (h1 : ¬ s = putS) (h2 : ¬ s = getS) (h3 : ¬ s = deleteS) :
    dispatchStep st inF outF (some (.vstr s)) = .ok false st := by
  simp [dispatchStep, h1, h2, h3]

theorem kvStep_put (st : KVState) (inF outF : List (String × GoVal))
    (hty : objGet inF typeF = some (.vstr putS)) :
    kvStep st (.vobj inF) (.vobj outF) =
      .ok (handlePut st inF).1 (handlePut st inF).2 := by
  show dispatchStep st inF outF (objGet inF typeF) = _
  rw [hty, dispatchStep_put]

theorem kvStep_delete (st : KVState) (inF outF : List (String × GoVal))
    (hty : objGet inF typeF = some (.vstr deleteS)) :
    kvStep st (.vobj inF) (.vobj outF) =
      .ok (handleDelete st inF).1 (handleDelete st inF).2 := by
  show dispatchStep st inF outF (objGet inF typeF) = _
  rw [hty, dispatchStep_delete]

theorem handlePut_wf (st : KVState) (inF : List (String × GoVal))
    (k v : String) (hkey : objGet inF keyF = some (.vstr k))
    (hval : objGet inF valueF = some (.vstr v)) :
    handlePut st inF = (true, kvInsert st k v) := by
  simp [handlePut, hkey, hval]

theorem handleDelete_wf (st : KVState) (inF : List (String × GoVal))
    (k : String) (hkey : objGet inF keyF = some (.vstr k)) :
    handleDelete st inF = (true, kvErase st k) := by
  simp [handleDelete, hkey]

theorem handlePut_state_of_not_legal (st : KVState)
    (inF : List (String × GoVal)) (h : (handlePut st inF).1 = false) :
    (handlePut st inF).2 = st := by
  unfold handlePut at h ⊢
  split at h <;> simp_all

theorem handleDelete_state_of_not_legal (st : KVState)
    (inF : List (String × GoVal)) (h : (handleDelete st inF).1 = false) :
    (handleDelete st inF).2 = st := by
  unfold handleDelete at h ⊢
  split at h <;> simp_all

theorem dispatchStep_not_panic (st : KVState)
    (inF outF : List (String × GoVal)) (o : Option GoVal) :
    (dispatchStep st inF outF o).isPanic = false := by
  cases o with
  | none => rfl
  | some v =>
    cases v <;> try rfl
    case vstr s =>
      simp only [dispatchStep]
      repeat' split
      all_goals rfl

/-! ### C5: the model and malformed shapes -/

/-- C5 counterexample: a non-map input (dynamic type `string`) makes `Step`
panic at the `input.(map[string]interface{})` assertion instead of returning
`legal = false`. -/
theorem step_panics_on_string_input :
    kvStep [] (.vstr "oops") (.vobj []) = .panic := rfl

/-- C5 (amended).  The step function panics exactly when the input or the
output is not a string-keyed map; whenever both are maps — which every
loader-produced record's fields are, a missing or null field decoding to a
nil map that still satisfies the assertion — it never raises, and any
malformed content inside the maps (missing or mistyped fields, unknown or
missing type tag) is communicated purely through the returned boolean. -/
theorem step_panics_iff_nonmap (st : KVState) (input output : GoVal) :
    (kvStep st input output).isPanic = (!input.isObj || !output.isObj) := by
  cases input <;> cases output <;>
    first
      | exact dispatchStep_not_panic _ _ _ _
      | rfl

/-! ### C10: illegal steps leave the state unchanged -/

/-- C10 (confirmed).  Whenever the step function reports an operation illegal
(`legal = false`), the returned state is exactly the state passed in: no
illegal `Put`, `Get`, `Delete` or unrecognized operation modifies any
binding. -/
theorem illegal_step_preserves_state (st st' : KVState) (input output : GoVal)
    (h : kvStep st input output = .ok false st') : st' = st := by
  cases input <;> cases output <;> simp only [kvStep] at h
  case vobj.vobj inF outF =>
    cases hty : objGet inF typeF with
    | none =>
      rw [hty] at h
      simp [dispatchStep] at h
      exact h.symm
    | some v =>
      rw [hty] at h
      cases v with
      | vstr s =>
        by_cases hp : s = putS
        · subst hp
          rw [dispatchStep_put] at h
          simp only [StepRes.ok.injEq] at h
          rw [← h.2]
          exact handlePut_state_of_not_legal st inF h.1
        · by_cases hg : s = getS
          · subst hg
            rw [dispatchStep_get] at h
            simp only [StepRes.ok.injEq] at h
            rw [← h.2, handleGet_state]
          · by_cases hd : s = deleteS
            · subst hd
              rw [dispatchStep_delete] at h
              simp only [StepRes.ok.injEq] at h
              rw [← h.2]
              exact handleDelete_state_of_not_legal st inF h.1
            · rw [dispatchStep_other st inF outF s hp hg hd] at h
              simp only [StepRes.ok.injEq] at h
              exact h.2.symm
      | vnil => simp [dispatchStep] at h; exact h.symm
      | vbool b => simp [dispatchStep] at h; exact h.symm
      | vnum n => simp [dispatchStep] at h; exact h.symm
      | varr xs => simp [dispatchStep] at h; exact h.symm
      | vobj fs => simp [dispatchStep] at h; exact h.symm
  all_goals exact StepRes.noConfusion h

/-- Witness for C10: the unrecognized empty input map is illegal on the empty
state, and the returned state is the given one. -/
theorem illegal_step_preserves_state_witness :
    kvStep [] (.vobj []) (.vobj []) = .ok false [] ∧ ([] : KVState) = [] :=
  ⟨rfl, illegal_step_preserves_state [] [] (.vobj []) (.vobj []) rfl⟩

/-! ### C9: the empty history short-circuits the engine -/

/-- C9 (confirmed).  A history file that parses to an empty record sequence
yields `IsLinearizable = true` and `TotalOps = 0`, and the result does not
depend on the engine at all (the engine is never invoked: the zero-length
check precedes the `CheckOperationsVerbose` call). -/
theorem empty_history_vacuous (engine : Engine) (p : String) (content : GoVal)
    (h : loadHistory content = .ok []) :
    processHistory engine p content =
      { path := p, isLinearizable := true, totalOps := 0,
        maxPartialLen := 0, result := none } := by
  simp [processHistory, h, processHistoryOps]

/-- Witness for C9 at the empty JSON array, with the always-`Unknown` engine
(whose verdict is visibly ignored). -/
theorem empty_history_vacuous_witness :
    loadHistory (GoVal.varr []) = .ok [] ∧
    processHistory engineUnknown "h.json" (GoVal.varr []) =
      { path := "h.json", isLinearizable := true, totalOps := 0,
        maxPartialLen := 0, result := none } :=
  ⟨rfl, empty_history_vacuous engineUnknown "h.json" (GoVal.varr []) rfl⟩

/-! ### C6: Put and Delete semantics -/

theorem isPutWf_spec (k : String) (inF : List (String × GoVal))
    (h : isPutWf k inF = true) :
    objGet inF typeF = some (.vstr putS) ∧
    objGet inF keyF = some (.vstr k) ∧
    ∃ v, objGet inF valueF = some (.vstr v) := by
  unfold isPutWf at h
  split at h
  · rename_i t k' v heq1 heq2 heq3
    simp only [Bool.and_eq_true, decide_eq_true_eq] at h
    obtain ⟨ht, hk⟩ := h
    subst ht
    subst hk
    exact ⟨heq1, heq2, v, heq3⟩
  all_goals simp at h

theorem isDeleteWf_spec (k : String) (inF : List (String × GoVal))
    (h : isDeleteWf k inF = true) :
    objGet inF typeF = some (.vstr deleteS) ∧
    objGet inF keyF = some (.vstr k) := by
  unfold isDeleteWf at h
  split at h
  · rename_i t k' heq1 heq2
    simp only [Bool.and_eq_true, decide_eq_true_eq] at h
    obtain ⟨ht, hk⟩ := h
    subst ht
    subst hk
    exact ⟨heq1, heq2⟩
  all_goals simp at h

theorem replay_wf (k : String) (ops : List (GoVal × GoVal)) :
    ∀ st : KVState, ops.all (wfPutDelete k) = true →
      replayLegal st ops = true := by
  induction ops with
  | nil =>
    intro st _
    rfl
  | cons p rest ih =>
    intro st hall
    simp only [List.all_cons, Bool.and_eq_true] at hall
    obtain ⟨hp, hrest⟩ := hall
    obtain ⟨i, o⟩ := p
    cases i with
    | vobj inF =>
      cases o with
      | vobj outF =>
        simp only [wfPutDelete, Bool.or_eq_true] at hp
        rcases hp with hput | hdel
        · obtain ⟨hty, hkey, v, hval⟩ := isPutWf_spec k inF hput
          have hstep := kvStep_put st inF outF hty
          rw [handlePut_wf st inF k v hkey hval] at hstep
          simp only [replayLegal, hstep]
          exact ih (kvInsert st k v) hrest
        · obtain ⟨hty, hkey⟩ := isDeleteWf_spec k inF hdel
          have hstep := kvStep_delete st inF outF hty
          rw [handleDelete_wf st inF k hkey] at hstep
          simp only [replayLegal, hstep]
          exact ih (kvErase st k) hrest
      | vnil => simp [wfPutDelete] at hp
      | vbool b => simp [wfPutDelete] at hp
      | vnum n => simp [wfPutDelete] at hp
      | vstr s => simp [wfPutDelete] at hp
      | varr xs => simp [wfPutDelete] at hp
    | vnil => simp [wfPutDelete] at hp
    | vbool b => simp [wfPutDelete] at hp
    | vnum n => simp [wfPutDelete] at hp
    | vstr s => simp [wfPutDelete] at hp
    | varr xs => simp [wfPutDelete] at hp

/-- C6 (confirmed).  Well-formed `Put(key, value)` operations are legal in
every state regardless of output content, and the new state is the old state
with `key` bound to `value` (inserted or overwritten, per the lookup
equations); well-formed `Delete(key)` operations are legal in every state and
remove `key` (a no-op on an absent key); consequently every single-key
history of well-formed `Put`/`Delete` operations replays fully legal in call
order. -/
theorem put_delete_always_legal :
    (∀ (st : KVState) (inF outF : List (String × GoVal)) (k v : String),
        objGet inF typeF = some (.vstr putS) →
        objGet inF keyF = some (.vstr k) →
        objGet inF valueF = some (.vstr v) →
        kvStep st (.vobj inF) (.vobj outF) = .ok true (kvInsert st k v)) ∧
    (∀ (st : KVState) (inF outF : List (String × GoVal)) (k : String),
        objGet inF typeF = some (.vstr deleteS) →
        objGet inF keyF = some (.vstr k) →
        kvStep st (.vobj inF) (.vobj outF) = .ok true (kvErase st k)) ∧
    (∀ (st : KVState) (k v k' : String),
        kvLookup (kvInsert st k v) k' =
          if k' = k then some v else kvLookup st k') ∧
    (∀ (st : KVState) (k k' : String),
        kvLookup (kvErase st k) k' =
          if k' = k then none else kvLookup st k') ∧
    (∀ (st : KVState) (k : String),
        kvLookup st k = none → kvErase st k = st) ∧
    (∀ (k : String) (ops : List (GoVal × GoVal)) (st : KVState),
        ops.all (wfPutDelete k) = true → replayLegal st ops = true) := by
  refine ⟨?_, ?_, kvLookup_kvInsert, kvLookup_kvErase, kvErase_absent,
    replay_wf⟩
  · intro st inF outF k v hty hkey hval
    rw [kvStep_put st inF outF hty, handlePut_wf st inF k v hkey hval]
  · intro st inF outF k hty hkey
    rw [kvStep_delete st inF outF hty, handleDelete_wf st inF k hkey]

/-- Witness for C6: a concrete `Put("x", "1")` then `Delete("x")` on key
`"x"`, via the first and last conjuncts of the theorem. -/
theorem put_delete_always_legal_witness :
    kvStep [] (.vobj [(typeF, GoVal.vstr putS), (keyF, GoVal.vstr "x"),
        (valueF, GoVal.vstr "1")]) (.vobj []) =
      .ok true (kvInsert [] "x" "1") ∧
    replayLegal []
      [(.vobj [(typeF, GoVal.vstr putS), (keyF, GoVal.vstr "x"),
          (valueF, GoVal.vstr "1")], .vobj []),
        (.vobj [(typeF, GoVal.vstr deleteS), (keyF, GoVal.vstr "x")],
          .vobj [])] = true :=
  ⟨put_delete_always_legal.1 []
      [(typeF, GoVal.vstr putS), (keyF, GoVal.vstr "x"),
        (valueF, GoVal.vstr "1")] [] "x" "1" rfl rfl rfl,
    put_delete_always_legal.2.2.2.2.2 "x"
      [(.vobj [(typeF, GoVal.vstr putS), (keyF, GoVal.vstr "x"),
          (valueF, GoVal.vstr "1")], .vobj []),
        (.vobj [(typeF, GoVal.vstr deleteS), (keyF, GoVal.vstr "x")],
          .vobj [])] [] rfl⟩

/-! ### C3: what the loader does and does not validate -/

theorem decodeRecord_mkRecord (cid : Int) (inF : List (String × GoVal))
    (callv : Int) (outF : List (String × GoVal)) (rt : Int) :
    decodeRecord (mkRecord cid inF callv outF rt) =
      .ok (mkOperation cid inF callv outF rt) := rfl

/-- C3 counterexample: the trace file whose single record's `input` lacks the
`key` field loads successfully — no `LoadError` — contradicting Scenario 4;
the record is passed through with its `key`-less input map. -/
theorem loader_accepts_missing_key :
    exceptIsOk (loadHistory missingKeyFile) = true ∧
    loadHistory missingKeyFile =
      .ok [mkOperation 1 [(typeF, GoVal.vstr getS)] 1
        [(statusF, GoVal.vstr okS)] 2] :=
  ⟨rfl, rfl⟩

/-- C3 (amended).  The loader checks only that the content is a JSON array of
objects whose present fields have the declared types; it never inspects the
contents of the `input`/`output` mappings.  Every list of records built from
arbitrary `input`/`output` field lists — in particular ones whose `input`
lacks `key` — loads successfully and verbatim, so a missing `key` never
produces a `LoadError` (such an operation is instead rejected or bucketed
defensively downstream). -/
theorem loader_ignores_inner_fields
    (l : List (Int × List (String × GoVal) × Int ×
      List (String × GoVal) × Int)) :
    loadHistory (.varr (l.map fun t =>
        mkRecord t.1 t.2.1 t.2.2.1 t.2.2.2.1 t.2.2.2.2)) =
      .ok (l.map fun t =>
        mkOperation t.1 t.2.1 t.2.2.1 t.2.2.2.1 t.2.2.2.2) := by
  show decodeList _ = _
  induction l with
  | nil => rfl
  | cons t rest ih =>
    obtain ⟨cid, inF, callv, outF, rt⟩ := t
    simp only [List.map_cons, decodeList, decodeRecord_mkRecord]
    rw [ih]
    rfl

/-! ### C4: the Unknown verdict in reports -/

/-- C4 counterexample: for the `Unknown` (timeout) verdict the printed report
opens with the very line used for a confirmed violation — `printResults`
chooses its headline by `result == porcupine.Ok` only, so `Unknown` and
`Illegal` share the "History is NOT linearizable" headline. -/
theorem printResults_conflates_unknown :
    (printResultsLines .unknown 5 0).head? =
      some "  🚫 History is NOT linearizable" ∧
    (printResultsLines .unknown 5 0).head? =
      (printResultsLines .illegal 5 0).head? :=
  ⟨rfl, rfl⟩

/-- C4 (amended).  An engine verdict of `Unknown` is reported as a failure
for automation (exit code 1) and stays distinct from `NotLinearizable` in the
returned `HistoryResult` (`result = some Unknown`) and in the report's final
`Check result` line — but the report's headline text does describe the run as
"History is NOT linearizable", so the headline (unlike the trailing line)
does conflate `Unknown` with a confirmed violation. -/
theorem unknown_failure_reported (engine : Engine) (p : String)
    (content : GoVal) (ops : List Operation)
    (hdec : loadHistory content = .ok ops) (hne : ops ≠ [])
    (hres : (engine (convertToPorcupineOperations ops)).1 = .unknown) :
    (runMain engine [(p, content)]).exitCode = 1 ∧
    (runMain engine [(p, content)]).summary =
      some (processHistory engine p content) ∧
    (processHistory engine p content).isLinearizable = false ∧
    (processHistory engine p content).result = some .unknown ∧
    (∀ n m : Nat,
      (printResultsLines .unknown n m).head? =
        some "  🚫 History is NOT linearizable" ∧
      (printResultsLines .unknown n m).getLast? =
        some ("  ⚠️ Check result: " ++ CheckResult.goString .unknown) ∧
      (printResultsLines .illegal n m).getLast? =
        some ("  ⚠️ Check result: " ++ CheckResult.goString .illegal)) := by
  have hlen : ¬ ops.length = 0 := by
    intro h0
    exact hne (List.length_eq_zero.mp h0)
  have hProc : processHistory engine p content =
      { path := p, isLinearizable := false,
        totalOps := (convertToPorcupineOperations ops).length,
        maxPartialLen := calculateMaxPartialLength
          (engine (convertToPorcupineOperations ops)).2,
        result := some .unknown } := by
    simp [processHistory, hdec, processHistoryOps, hlen, hres]
  refine ⟨?_, ?_, ?_, ?_, ?_⟩
  · simp [runMain, hProc]
  · simp [runMain]
  · simp [hProc]
  · simp [hProc]
  · intro n m
    refine ⟨rfl, ?_, ?_⟩ <;>
      by_cases hm : m > 0 <;>
        simp [printResultsLines, hm]

/-- Witness for C4 at the single-record `missingKeyFile` with the
always-`Unknown` engine. -/
theorem unknown_failure_reported_witness :
    loadHistory missingKeyFile =
      .ok [mkOperation 1 [(typeF, GoVal.vstr getS)] 1
        [(statusF, GoVal.vstr okS)] 2] ∧
    (runMain engineUnknown [("h.json", missingKeyFile)]).exitCode = 1 ∧
    (processHistory engineUnknown "h.json" missingKeyFile).result =
      some CheckResult.unknown :=
  ⟨rfl,
    (unknown_failure_reported engineUnknown "h.json" missingKeyFile _ rfl
      (List.cons_ne_nil _ _) rfl).1,
    (unknown_failure_reported engineUnknown "h.json" missingKeyFile _ rfl
      (List.cons_ne_nil _ _) rfl).2.2.2.1⟩

/-! ### C7: partitioning is a disjoint cover (for map-shaped inputs) -/

theorem insertOp_fst (acc : List (String × List PorcOp)) (k : String)
    (op : PorcOp) :
    (insertOp acc k op).map Prod.fst =
      if k ∈ acc.map Prod.fst then acc.map Prod.fst
      else acc.map Prod.fst ++ [k] := by
  induction acc with
  | nil => simp [insertOp]
  | cons p rest ih =>
    obtain ⟨k', ops⟩ := p
    by_cases hk : k' = k
    · subst hk
      simp [insertOp]
    · simp only [insertOp, if_neg hk, List.map_cons, ih]
      by_cases hmem : k ∈ rest.map Prod.fst <;>
        simp [hmem, Ne.symm hk]

theorem insertOp_flatten (acc : List (String × List PorcOp)) (k : String)
    (op : PorcOp) :
    List.Perm ((insertOp acc k op).map Prod.snd).flatten
      (((acc.map Prod.snd).flatten) ++ [op]) := by
  induction acc with
  | nil => simp [insertOp]
  | cons p rest ih =>
    obtain ⟨k', ops⟩ := p
    by_cases hk : k' = k
    · subst hk
      have he : insertOp ((k', ops) :: rest) k' op =
          (k', ops ++ [op]) :: rest := by
        simp [insertOp]
      rw [he]
      simp only [List.map_cons, List.flatten_cons]
      rw [List.append_assoc, List.append_assoc]
      exact List.Perm.append_left ops List.perm_append_comm
    · simp only [insertOp, if_neg hk, List.map_cons, List.flatten_cons]
      rw [List.append_assoc]
      exact List.Perm.append_left ops ih

theorem insertOp_grouping (acc : List (String × List PorcOp)) (k : String)
    (op : PorcOp) (hop : porcKeyOf op = some k)
    (hacc : ∀ p ∈ acc, ∀ o ∈ p.2, porcKeyOf o = some p.1) :
    ∀ p ∈ insertOp acc k op, ∀ o ∈ p.2, porcKeyOf o = some p.1 := by
  induction acc with
  | nil =>
    intro p hp o ho
    simp [insertOp] at hp
    subst hp
    simp at ho
    rcases ho with rfl
    exact hop
  | cons q rest ih =>
    obtain ⟨k', ops⟩ := q
    intro p hp o ho
    by_cases hk : k' = k
    · subst hk
      simp only [insertOp, if_pos rfl] at hp
      rcases List.mem_cons.mp hp with rfl | hmem
      · rcases List.mem_append.mp ho with hmem2 | hmem2
        · exact hacc (k', ops) (List.mem_cons_self _ _) o hmem2
        · simp at hmem2
          rcases hmem2 with rfl
          exact hop
      · exact hacc p (List.mem_cons_of_mem _ hmem) o ho
    · simp only [insertOp, if_neg hk] at hp
      rcases List.mem_cons.mp hp with rfl | hmem
      · exact hacc (k', ops) (List.mem_cons_self _ _) o ho
      · exact ih (fun q hq => hacc q (List.mem_cons_of_mem _ hq)) p hmem o ho

theorem buildPartitions_invariant (h : List PorcOp) :
    ∀ acc : List (String × List PorcOp),
      (∀ op ∈ h, (porcKeyOf op).isSome = true) →
      (∀ p ∈ acc, ∀ op ∈ p.2, porcKeyOf op = some p.1) →
      (acc.map Prod.fst).Nodup →
      ∃ parts, buildPartitions acc h = some parts ∧
        List.Perm ((parts.map Prod.snd).flatten)
          (((acc.map Prod.snd).flatten) ++ h) ∧
        (∀ p ∈ parts, ∀ op ∈ p.2, porcKeyOf op = some p.1) ∧
        (parts.map Prod.fst).Nodup := by
  induction h with
  | nil =>
    intro acc _ hacc hnd
    exact ⟨acc, rfl, by simp, hacc, hnd⟩
  | cons op rest ih =>
    intro acc hobj hacc hnd
    obtain ⟨k, hk⟩ := Option.isSome_iff_exists.mp
      (hobj op (List.mem_cons_self _ _))
    have hrest : ∀ o ∈ rest, (porcKeyOf o).isSome = true :=
      fun o ho => hobj o (List.mem_cons_of_mem _ ho)
    have hacc' := insertOp_grouping acc k op hk hacc
    have hnd' : ((insertOp acc k op).map Prod.fst).Nodup := by
      rw [insertOp_fst]
      by_cases hmem : k ∈ acc.map Prod.fst
      · simpa [hmem] using hnd
      · simp [hmem]
        exact List.Nodup.append hnd (List.nodup_singleton k)
          (by simpa [List.disjoint_singleton] using hmem)
    obtain ⟨parts, hbp, hperm, hgr, hndp⟩ := ih (insertOp acc k op)
      hrest hacc' hnd'
    refine ⟨parts, ?_, ?_, hgr, hndp⟩
    · simp only [buildPartitions, hk]
      exact hbp
    · have h2 : List.Perm
          ((((insertOp acc k op).map Prod.snd).flatten) ++ rest)
          ((((acc.map Prod.snd).flatten) ++ [op]) ++ rest) :=
        (insertOp_flatten acc k op).append_right rest
      have h3 : (((acc.map Prod.snd).flatten) ++ [op]) ++ rest =
          ((acc.map Prod.snd).flatten) ++ (op :: rest) := by simp
      rw [← h3]
      exact hperm.trans h2

theorem porcKeyOf_isSome_of_isObj (op : PorcOp)
    (h : GoVal.isObj op.input = true) : (porcKeyOf op).isSome = true := by
  unfold porcKeyOf
  cases hin : op.input <;> simp [GoVal.isObj, hin] at h ⊢
  split <;> simp

/-- C7 counterexample: a history containing one operation whose `Input` is
not a map makes `partitionByKey` panic on the type assertion — that operation
(whose key cannot be determined) is not placed in any bucket, so no disjoint
cover is produced for this history. -/
theorem partition_panics_on_nonmap_input :
    partitionByKey [badPorcOp] = none := rfl

/-- C7 (amended).  For every history whose operations' inputs are maps (as
every loader-produced history's are), `partitionByKey` produces a disjoint
cover: the buckets' concatenation is a permutation of the history (every
operation appears exactly once across the partitions), each bucket holds
exactly the operations of its one key — `"__unknown__"` serving as the
defensive bucket for map inputs without a determinable string key — and
bucket keys are pairwise distinct.  An operation whose input is not a map
instead panics the partitioner (see the counterexample). -/
theorem partitionByKey_cover (h : List PorcOp)
    (hobj : ∀ op ∈ h, GoVal.isObj op.input = true) :
    ∃ parts : List (String × List PorcOp),
      buildPartitions [] h = some parts ∧
      partitionByKey h = some (parts.map Prod.snd) ∧
      List.Perm ((parts.map Prod.snd).flatten) h ∧
      (∀ p ∈ parts, ∀ op ∈ p.2, porcKeyOf op = some p.1) ∧
      (parts.map Prod.fst).Nodup := by
  obtain ⟨parts, hbp, hperm, hgr, hnd⟩ :=
    buildPartitions_invariant h []
      (fun op hop => porcKeyOf_isSome_of_isObj op (hobj op hop))
      (by simp) (by simp)
  refine ⟨parts, hbp, ?_, by simpa using hperm, hgr, hnd⟩
  simp [partitionByKey, hbp]

/-- Witness for C7: a two-operation history — a keyed `Get("x")` and an
operation without a determinable key (defensive bucket). -/
theorem partitionByKey_cover_witness :
    (∀ op ∈ [goodPorcOp, noKeyPorcOp], GoVal.isObj op.input = true) ∧
    ∃ parts : List (String × List PorcOp),
      buildPartitions [] [goodPorcOp, noKeyPorcOp] = some parts ∧
      partitionByKey [goodPorcOp, noKeyPorcOp] =
        some (parts.map Prod.snd) ∧
      List.Perm ((parts.map Prod.snd).flatten) [goodPorcOp, noKeyPorcOp] ∧
      (∀ p ∈ parts, ∀ op ∈ p.2, porcKeyOf op = some p.1) ∧
      (parts.map Prod.fst).Nodup :=
  ⟨by decide, partitionByKey_cover [goodPorcOp, noKeyPorcOp] (by decide)⟩

/-! ### C8: error propagation through the run -/

theorem loadAll_error (files : List GoVal) (c : GoVal) (hc : c ∈ files)
    (hbad : exceptIsOk (loadHistory c) = false) :
    ∃ e, loadAll files = .error e := by
  induction files with
  | nil => cases hc
  | cons f fs ih =>
    rcases List.mem_cons.mp hc with rfl | hmem
    · cases hl : loadHistory c with
      | error e => exact ⟨e, by simp only [loadAll, hl]; rfl⟩
      | ok ops => simp [exceptIsOk, hl] at hbad
    · cases hl : loadHistory f with
      | error e => exact ⟨e, by simp only [loadAll, hl]; rfl⟩
      | ok ops =>
        obtain ⟨e, he⟩ := ih hmem
        exact ⟨e, by simp only [loadAll, hl, he]; rfl⟩

/-- C8 counterexample: a single-file run whose load fails does NOT abort
without a summary — `ProcessHistory` swallows the load error into a
`HistoryResult` with `IsLinearizable = false` and `main` still prints the
summary block (exit 1), so a verdict-looking summary is produced for a failed
load. -/
theorem load_failure_still_summarized :
    exceptIsOk (loadHistory badFile) = false ∧
    runMain engineOk [("h.json", badFile)] =
      ⟨1, true, some { path := "h.json", isLinearizable := false,
                       totalOps := 0, maxPartialLen := 0,
                       result := none }⟩ :=
  ⟨rfl, rfl⟩

/-- C8 (amended).  In a multi-file run any load failure aborts the merge and
the whole run before any summary (exit 1, no summary); in a single-file run a
load failure does not abort — the error is printed and the run still emits a
summary whose result has `IsLinearizable = false` and no verdict; an engine
failure (verdict `Unknown`) still produces the full summary with the explicit
undecided verdict and exit 1. -/
theorem error_propagation_paths :
    (∀ (engine : Engine) (f₁ f₂ : String × GoVal)
        (rest : List (String × GoVal)) (c : GoVal),
        c ∈ (f₁ :: f₂ :: rest).map Prod.snd →
        exceptIsOk (loadHistory c) = false →
        runMain engine (f₁ :: f₂ :: rest) = ⟨1, false, none⟩) ∧
    (∀ (engine : Engine) (p : String) (c : GoVal) (e : String),
        loadHistory c = .error e →
        runMain engine [(p, c)] =
          ⟨1, true, some { path := p, isLinearizable := false }⟩) ∧
    (∀ (engine : Engine) (p : String) (c : GoVal) (ops : List Operation),
        loadHistory c = .ok ops → ops ≠ [] →
        (engine (convertToPorcupineOperations ops)).1 = .unknown →
        runMain engine [(p, c)] =
          ⟨1, true, some { path := p, isLinearizable := false,
                           totalOps :=
                             (convertToPorcupineOperations ops).length,
                           maxPartialLen := calculateMaxPartialLength
                             (engine (convertToPorcupineOperations ops)).2,
                           result := some .unknown }⟩) := by
  refine ⟨?_, ?_, ?_⟩
  · intro engine f₁ f₂ rest c hc hbad
    obtain ⟨e, he⟩ := loadAll_error _ c hc hbad
    simp only [List.map_cons] at he
    simp [runMain, mergeHistories, he]
  · intro engine p c e h
    simp [runMain, processHistory, h]
  · intro engine p c ops hdec hne hres
    have hlen : ¬ ops.length = 0 := by
      intro h0
      exact hne (List.length_eq_zero.mp h0)
    simp [runMain, processHistory, hdec, processHistoryOps, hlen, hres]

/-- Witness for C8: the three paths at concrete inputs — a bad file among two
(abort, no summary), a bad single file (summary with failure result), and a
good single file with a timed-out engine (full summary, verdict Unknown). -/
theorem error_propagation_paths_witness :
    exceptIsOk (loadHistory badFile) = false ∧
    runMain engineOk [("a.json", badFile), ("b.json", fileB)] =
      ⟨1, false, none⟩ ∧
    runMain engineOk [("h.json", badFile)] =
      ⟨1, true, some { path := "h.json", isLinearizable := false }⟩ ∧
    runMain engineUnknown [("h.json", missingKeyFile)] =
      ⟨1, true, some { path := "h.json", isLinearizable := false,
                       totalOps := 1, maxPartialLen := 1,
                       result := some CheckResult.unknown }⟩ :=
  ⟨rfl,
    error_propagation_paths.1 engineOk ("a.json", badFile) ("b.json", fileB)
      [] badFile (by simp) rfl,
    error_propagation_paths.2.1 engineOk "h.json" badFile errArrS rfl,
    error_propagation_paths.2.2 engineUnknown "h.json" missingKeyFile
      [mkOperation 1 [(typeF, GoVal.vstr getS)] 1
        [(statusF, GoVal.vstr okS)] 2] rfl (List.cons_ne_nil _ _) rfl⟩

/-! ### C2: the merge sorts by call but is not stable -/

set_option maxRecDepth 4000 in
/-- C2 evaluation at the failing input.  Concatenating `fileA` and `fileB` in
file order gives the thirteen records with ids `0..12` and call times
`1,0,2,0,3,3,3,3,1,0,3,0,3`; the merged output is sorted by call, but the
records with id 1 and id 9 — both at call time 0, id 1 first in the
concatenation — come out with id 9 BEFORE id 1 (ditto ids 0 and 8 at call
time 1): Go's `sort.Slice` (pdqsort) moved the pivot record over its equals,
which a stable sort (`sort.SliceStable`), as the spec requires, never does. -/
theorem mergeHistories_reorders_equal_calls :
    idsOf (loadAll [fileA, fileB]) =
      [0, 1, 2, 3, 4, 5, 6, 7, 8, 9, 10, 11, 12] ∧
    callsOf (loadAll [fileA, fileB]) =
      [1, 0, 2, 0, 3, 3, 3, 3, 1, 0, 3, 0, 3] ∧
    idsOf (mergeHistories [fileA, fileB]) =
      [9, 1, 3, 11, 8, 0, 2, 4, 5, 6, 7, 10, 12] ∧
    callsOf (mergeHistories [fileA, fileB]) =
      [0, 0, 0, 0, 1, 1, 2, 3, 3, 3, 3, 3, 3] := by
  refine ⟨rfl, rfl, ?_, ?_⟩ <;> rfl

end OmniKV
